import Mathlib

/-!
Verification development for the PeerTable collaborative-table core
(`CollaborativeTable` component): the offline-first synchronization and
conflict-resolution engine.  The definitions below are a shallow embedding
of the component's state and operations: the cell cache, the pending-change
queue, the authority store (modelled as part of the state), the sync loop
(`syncPendingChanges`), the cell write path (`updateCell`), the edit-session
operations (`startEditing` / `finishEditing`), the change-feed handler, the
data loader (`loadTableData`, online branch) and the row/column resize
operations.  Timestamps (ISO strings compared through `Date.getTime` in the
source) are modelled as natural numbers; absent timestamps are `Option.none`
and compared as `0`, mirroring the source's falsy-to-zero coercion.
Authority write outcomes are modelled by an oracle `Key → WriteResult`
(success, duplicate-key error, or other error); the pre-write fetch of the
existing record is modelled as always succeeding.
-/

namespace PeerTable

/-- Cell key `(row, col)`; the source uses the string `row-col`, which is in
bijection with the pair for natural indices. -/
abbrev Key := Nat × Nat

/-- Local cached cell, mirroring the `TableCell` interface. -/
structure Cell where
  row : Nat
  col : Nat
  value : String
  version : Nat
  lastModifiedBy : Option String := none
  lastModifiedAt : Option Nat := none
deriving DecidableEq

/-- Authority-side record for one cell (`table_data` row, minus ids). -/
structure ServerCell where
  value : String
  version : Nat
  lastModifiedBy : Option String := none
  lastModifiedAt : Option Nat := none
deriving DecidableEq

/-- One `table_history` row as written by `logCellHistory`. -/
structure HistoryRecord where
  row : Nat
  col : Nat
  oldValue : Option String
  newValue : String
  actorId : Option String
  modifiedAt : Nat
deriving DecidableEq

/-- Outcome of one authority write attempt. -/
inductive WriteResult
  | ok
  | dupKey
  | err
deriving DecidableEq

abbrev Server := List (Key × ServerCell)
abbrev CellMap := List (Key × Cell)

/-- Record lookup (`cells[key]`, or the `maybeSingle` fetch). -/
def lookupKV {α : Type} : List (Key × α) → Key → Option α
  | [], _ => none
  | (k1, v) :: rest, k => if k1 = k then some v else lookupKV rest k

/-- Record write (`{ ...m, [key]: v }`, or the authority update/insert). -/
def setKV {α : Type} : List (Key × α) → Key → α → List (Key × α)
  | [], k, v => [(k, v)]
  | (k1, v1) :: rest, k, v =>
      if k1 = k then (k, v) :: rest else (k1, v1) :: setKV rest k v

/-- Record delete (`delete m[key]`). -/
def eraseKV {α : Type} : List (Key × α) → Key → List (Key × α)
  | [], _ => []
  | (k1, v1) :: rest, k =>
      if k1 = k then eraseKV rest k else (k1, v1) :: eraseKV rest k

/-- The sync conflict decision (`syncPendingChanges`, the `shouldUpdate`
flag): given the fetched authority record and the pending local cell,
`true` means the local edit is written through; `false` means it is
dropped.  The source skips the write exactly when
`serverTime > localTime`, where a missing timestamp reads as `0`. -/
def shouldUpdate (existing : Option ServerCell) (c : Cell) : Bool :=
  match existing with
  | some ex =>
      if ex.lastModifiedAt.getD 0 > c.lastModifiedAt.getD 0 then false else true
  | none => true

/-- The authority record written by the sync loop for one pending cell:
an update bumps `version` to `max(cell.version, existing.version + 1)`;
an insert keeps `cell.version`.  A missing local timestamp falls back to
the current time (`cell.lastModifiedAt || new Date().toISOString()`). -/
def syncWriteRec (uid : String) (now : Nat) (existing : Option ServerCell)
    (c : Cell) : ServerCell :=
  match existing with
  | some ex =>
      { value := c.value
        version := max c.version (ex.version + 1)
        lastModifiedBy := some uid
        lastModifiedAt := some (c.lastModifiedAt.getD now) }
  | none =>
      { value := c.value
        version := c.version
        lastModifiedBy := some uid
        lastModifiedAt := some (c.lastModifiedAt.getD now) }

/-- The history row logged by the sync loop for one pending cell (`oldValue`
is the authority's previous value, or null for an insert). -/
def syncHistRec (uid : String) (now : Nat) (existing : Option ServerCell)
    (k : Key) (c : Cell) : HistoryRecord :=
  { row := k.1
    col := k.2
    oldValue := existing.map ServerCell.value
    newValue := c.value
    actorId := some uid
    modifiedAt := c.lastModifiedAt.getD now }

/-- Result of processing one pending change inside the sync loop:
the (possibly updated) authority store, the entry requeued into
`remainingPendingChanges` (if any), the successful authority mutations,
the history rows appended, the write attempted (if any), and the values
added to `syncedCount` / `failedCount`. -/
structure StepOut where
  server : Server
  requeued : Option (Key × Cell)
  writes : List (Key × ServerCell)
  history : List HistoryRecord
  attempted : Option (Key × ServerCell)
  synced : Nat
  failed : Nat
deriving DecidableEq

/-- One iteration of the sync loop body (`for (const [key, cell] of
Object.entries(pendingChanges))`).  On a skip (authority strictly newer)
nothing is written and no history is logged, and `syncedCount` is
incremented twice: once at the timestamp check and once more at the
no-error branch after it, as in the source.  On a write attempt the
history row is logged regardless of the write outcome, because the source
logs history before inspecting the write error; a duplicate-key error is
treated as already synced, any other error requeues the change. -/
def syncOne (oracle : Key → WriteResult) (uid : String) (now : Nat)
    (server : Server) (k : Key) (c : Cell) : StepOut :=
  let existing := lookupKV server k
  if shouldUpdate existing c then
    let w := syncWriteRec uid now existing c
    let h := syncHistRec uid now existing k c
    match oracle k with
    | .ok =>
        { server := setKV server k w, requeued := none, writes := [(k, w)]
          history := [h], attempted := some (k, w), synced := 1, failed := 0 }
    | .dupKey =>
        { server := server, requeued := none, writes := []
          history := [h], attempted := some (k, w), synced := 1, failed := 0 }
    | .err =>
        { server := server, requeued := some (k, c), writes := []
          history := [h], attempted := some (k, w), synced := 0, failed := 1 }
  else
    { server := server, requeued := none, writes := []
      history := [], attempted := none, synced := 2, failed := 0 }

/-- Accumulated result of a full sync pass over the pending set. -/
structure SyncOutcome where
  server : Server
  remaining : CellMap
  writes : List (Key × ServerCell)
  history : List HistoryRecord
  synced : Nat
  failed : Nat
deriving DecidableEq

/-- The sequential sync loop over the pending-change entries, in insertion
order, threading the authority store through the steps. -/
def syncLoop (oracle : Key → WriteResult) (uid : String) (now : Nat) :
    Server → CellMap → SyncOutcome
  | server, [] =>
      { server := server, remaining := [], writes := [], history := []
        synced := 0, failed := 0 }
  | server, (k, c) :: rest =>
      let s := syncOne oracle uid now server k c
      let r := syncLoop oracle uid now s.server rest
      { server := r.server
        remaining := s.requeued.toList ++ r.remaining
        writes := s.writes ++ r.writes
        history := s.history ++ r.history
        synced := s.synced + r.synced
        failed := s.failed + r.failed }

/-- The full per-table state of the component, with the authority store
and the history table folded in to close the system. -/
structure TableState where
  isOnline : Bool
  isSyncing : Bool
  editingCell : Option Key
  editingValue : String
  cells : CellMap
  pendingChanges : CellMap
  rows : Nat
  cols : Nat
  server : Server
  history : List HistoryRecord
deriving DecidableEq

/-- Initial component state: a 10 by 5 grid, nothing cached, nothing
pending. -/
def initialState : TableState :=
  { isOnline := true, isSyncing := false, editingCell := none
    editingValue := "", cells := [], pendingChanges := [], rows := 10
    cols := 5, server := [], history := [] }

/-- `loadTableData`, online branch: replace the cell cache with the fetched
authority rows and grow (never shrink) the grid dimensions to cover every
observed index, starting the fold at `rows - 1` / `cols - 1` as in the
source. -/
def loadTableData (st : TableState) (items : Server) : TableState :=
  let maxRow := items.foldl (fun m it => max m it.1.1) (st.rows - 1)
  let maxCol := items.foldl (fun m it => max m it.1.2) (st.cols - 1)
  { st with
    cells := items.map (fun it =>
      (it.1,
        { row := it.1.1, col := it.1.2, value := it.2.value
          version := it.2.version, lastModifiedBy := it.2.lastModifiedBy
          lastModifiedAt := it.2.lastModifiedAt }))
    rows := max st.rows (maxRow + 1)
    cols := max st.cols (maxCol + 1) }

/-- Summary returned by a sync pass (the synced/failed counters and the
successful authority writes it performed). -/
structure SyncReport where
  synced : Nat
  failed : Nat
  writes : List (Key × ServerCell)
deriving DecidableEq

/-- `syncPendingChanges`: a no-op unless online, with a non-empty pending
set, and not already syncing; otherwise run the sync loop, install the
requeued changes as the new pending set, append the logged history, and —
when at least one change was counted synced — reload the table data from
the authority.  The `isSyncing` flag is raised for the duration of the
pass and lowered at its end. -/
def syncPendingChanges (oracle : Key → WriteResult) (uid : String) (now : Nat)
    (st : TableState) : TableState × SyncReport :=
  if !st.isOnline || st.pendingChanges.isEmpty || st.isSyncing then
    (st, { synced := 0, failed := 0, writes := [] })
  else
    let o := syncLoop oracle uid now st.server st.pendingChanges
    let st1 := { st with
      server := o.server
      pendingChanges := o.remaining
      history := st.history ++ o.history
      isSyncing := false }
    let st2 := if 0 < o.synced then loadTableData st1 o.server else st1
    (st2, { synced := o.synced, failed := o.failed, writes := o.writes })

/-- `updateCell`: bump the cached version optimistically, write the cell
into the cache, and — when online — attempt the authority write (update
with `version = max(newCell.version, existing.version + 1)` when the
record exists, insert otherwise), logging a history row before the write
error is inspected, exactly as the source does.  On success the key is
removed from the pending set; on any write error (the source has no
duplicate-key special case here) the edit is queued as a pending change.
Offline, the edit is queued without touching the authority.  The second
component is the authority record whose write was attempted, if any. -/
def updateCell (oracle : Key → WriteResult) (uid : String) (now : Nat)
    (st : TableState) (row col : Nat) (value : String) :
    TableState × Option (Key × ServerCell) :=
  let k : Key := (row, col)
  let newCell : Cell :=
    { row := row, col := col, value := value
      version := ((lookupKV st.cells k).map Cell.version).getD 0 + 1
      lastModifiedBy := some uid, lastModifiedAt := some now }
  let cells1 := setKV st.cells k newCell
  if st.isOnline then
    let existing := lookupKV st.server k
    let w : ServerCell :=
      match existing with
      | some ex =>
          { value := value, lastModifiedBy := some uid
            version := max newCell.version (ex.version + 1)
            lastModifiedAt := some now }
      | none =>
          { value := value, lastModifiedBy := some uid
            version := newCell.version, lastModifiedAt := some now }
    let h : HistoryRecord :=
      { row := row, col := col, oldValue := existing.map ServerCell.value
        newValue := value, actorId := some uid, modifiedAt := now }
    match oracle k with
    | .ok =>
        ({ st with
            cells := cells1,
            server := setKV st.server k w,
            history := st.history ++ [h],
            pendingChanges := eraseKV st.pendingChanges k }, some (k, w))
    | _ =>
        ({ st with
            cells := cells1,
            history := st.history ++ [h],
            pendingChanges := setKV st.pendingChanges k newCell }, some (k, w))
  else
    ({ st with
        cells := cells1,
        pendingChanges := setKV st.pendingChanges k newCell }, none)

/-- `startEditing`: open an edit session on the cell, seeding the edit
buffer with the cell's current cached value (`cells[key]?.value || ''`). -/
def startEditing (st : TableState) (row col : Nat) : TableState :=
  { st with
    editingCell := some (row, col)
    editingValue := ((lookupKV st.cells (row, col)).map Cell.value).getD "" }

/-- `finishEditing`: commit the open edit session; the write runs only
when the edit buffer differs from the cell's current cached value at
commit time.  The session is closed either way. -/
def finishEditing (oracle : Key → WriteResult) (uid : String) (now : Nat)
    (st : TableState) : TableState × Option (Key × ServerCell) :=
  match st.editingCell with
  | none => (st, none)
  | some k =>
      let currentCellValue := ((lookupKV st.cells k).map Cell.value).getD ""
      if st.editingValue ≠ currentCellValue then
        let r := updateCell oracle uid now st k.1 k.2 st.editingValue
        ({ r.1 with editingCell := none, editingValue := "" }, r.2)
      else
        ({ st with editingCell := none, editingValue := "" }, none)

/-- One change-feed mutation event (`postgres_changes` payload row). -/
structure FeedEvent where
  row : Nat
  col : Nat
  value : Option String
  version : Nat
  lastModifiedBy : Option String
  lastModifiedAt : Option Nat
deriving DecidableEq

/-- The realtime subscription handler: an event is applied only when its
author is not the local actor and its cell is not the one being edited
locally; the applied entry carries the event's value and version but no
`lastModifiedAt` — the handler does not copy the event's timestamp. -/
def applyFeedEvent (uid : String) (st : TableState) (ev : FeedEvent) :
    TableState :=
  let k : Key := (ev.row, ev.col)
  if ev.lastModifiedBy ≠ some uid ∧ st.editingCell ≠ some k then
    { st with
        cells := setKV st.cells k
          { row := ev.row, col := ev.col, value := ev.value.getD "",
            version := ev.version, lastModifiedBy := ev.lastModifiedBy,
            lastModifiedAt := none } }
  else st

/-- `addRow`. -/
def addRow (st : TableState) : TableState := { st with rows := st.rows + 1 }

/-- `addColumn`. -/
def addColumn (st : TableState) : TableState := { st with cols := st.cols + 1 }

/-- `removeRow`: only when more than one row remains, drop the last row and
delete, from both the cell cache and the pending set, every key in that
row across the current columns. -/
def removeRow (st : TableState) : TableState :=
  if 1 < st.rows then
    { st with
      rows := st.rows - 1
      cells := (List.range st.cols).foldl
        (fun m c => eraseKV m (st.rows - 1, c)) st.cells
      pendingChanges := (List.range st.cols).foldl
        (fun m c => eraseKV m (st.rows - 1, c)) st.pendingChanges }
  else st

/-- `removeColumn`: symmetric to `removeRow`. -/
def removeColumn (st : TableState) : TableState :=
  if 1 < st.cols then
    { st with
      cols := st.cols - 1
      cells := (List.range st.rows).foldl
        (fun m r => eraseKV m (r, st.cols - 1)) st.cells
      pendingChanges := (List.range st.rows).foldl
        (fun m r => eraseKV m (r, st.cols - 1)) st.pendingChanges }
  else st

/-- Oracle under which every authority write succeeds. -/
def oracleOk : Key → WriteResult := fun _ => .ok

/-- Oracle under which every authority write fails with a non-duplicate
error. -/
def oracleErr : Key → WriteResult := fun _ => .err

/-- Oracle under which every authority write fails with a duplicate-key
error. -/
def oracleDup : Key → WriteResult := fun _ => .dupKey

/-- Concrete authority record used to exercise the equal-timestamp branch
of the conflict decision. -/
def exTie : ServerCell :=
  { value := "remote", version := 3, lastModifiedBy := some "bob",
    lastModifiedAt := some 5 }

/-- Concrete pending local edit with the same timestamp as `exTie`. -/
def cTie : Cell :=
  { row := 0, col := 0, value := "local", version := 2,
    lastModifiedBy := some "alice", lastModifiedAt := some 5 }

/-- Concrete cached cell used by the edit-session scenarios. -/
def cellA : Cell :=
  { row := 0, col := 0, value := "a", version := 1,
    lastModifiedBy := some "bob", lastModifiedAt := some 3 }

/-- State holding `cellA` at `(0,0)`. -/
def stWithA : TableState := { initialState with cells := [((0, 0), cellA)] }

/-- `stWithA` with an edit session just opened on `(0,0)`: the edit buffer
holds the captured pre-edit value `"a"`. -/
def stEditingA : TableState := startEditing stWithA 0 0

/-- `stEditingA` after a data reload that brought a newer authority value
`"b"` for the cell being edited (the loader does not close the session). -/
def stEditingAReloaded : TableState :=
  loadTableData stEditingA
    [((0, 0), { value := "b", version := 2, lastModifiedBy := some "bob",
                lastModifiedAt := some 4 })]

/-- Concrete pending edit used by the sync-pass scenarios. -/
def cPend : Cell :=
  { row := 1, col := 2, value := "q", version := 1,
    lastModifiedBy := some "u", lastModifiedAt := some 6 }

/-- State with one queued pending change. -/
def stPending : TableState :=
  { initialState with pendingChanges := [((1, 2), cPend)] }

/-- Offline state with one queued pending change. -/
def stOfflinePending : TableState := { stPending with isOnline := false }

/-- Concrete feed event authored by another actor. -/
def evFeed : FeedEvent :=
  { row := 2, col := 3, value := some "w", version := 9,
    lastModifiedBy := some "bob", lastModifiedAt := some 44 }

/-- State used to exercise the grid-dimension operations. -/
def stGrid : TableState :=
  { initialState with
    rows := 3,
    cols := 2,
    cells := [((2, 0), { row := 2, col := 0, value := "z", version := 1 }),
              ((1, 1), { row := 1, col := 1, value := "y", version := 1 })],
    pendingChanges := [((2, 1), { row := 2, col := 1, value := "p",
                                  version := 1 })] }

theorem lookupKV_setKV_self {α : Type} (m : List (Key × α)) (k : Key) (v : α) :
    lookupKV (setKV m k v) k = some v := by
  induction m with
  | nil => simp [setKV, lookupKV]
  | cons hd tl ih =>
      obtain ⟨k1, v1⟩ := hd
      by_cases h : k1 = k
      · simp [setKV, h, lookupKV]
      · simp [setKV, h, lookupKV, ih]

theorem lookupKV_setKV_ne {α : Type} (m : List (Key × α)) (k q : Key) (v : α)
    (h : q ≠ k) : lookupKV (setKV m k v) q = lookupKV m q := by
  induction m with
  | nil => simp [setKV, lookupKV, Ne.symm h]
  | cons hd tl ih =>
      obtain ⟨k1, v1⟩ := hd
      by_cases h1 : k1 = k
      · subst h1
        simp [setKV, lookupKV, Ne.symm h]
      · simp only [setKV, if_neg h1, lookupKV]
        by_cases h2 : k1 = q <;> simp [h2, ih]

theorem lookupKV_eraseKV_self {α : Type} (m : List (Key × α)) (k : Key) :
    lookupKV (eraseKV m k) k = none := by
  induction m with
  | nil => simp [eraseKV, lookupKV]
  | cons hd tl ih =>
      obtain ⟨k1, v1⟩ := hd
      by_cases h : k1 = k
      · simp [eraseKV, h, ih]
      · simp [eraseKV, h, lookupKV, ih]

theorem lookupKV_eraseKV_ne {α : Type} (m : List (Key × α)) (k q : Key)
    (h : q ≠ k) : lookupKV (eraseKV m k) q = lookupKV m q := by
  induction m with
  | nil => simp [eraseKV]
  | cons hd tl ih =>
      obtain ⟨k1, v1⟩ := hd
      by_cases h1 : k1 = k
      · subst h1
        simp [eraseKV, lookupKV, Ne.symm h, ih]
      · simp only [eraseKV, if_neg h1, lookupKV]
        by_cases h2 : k1 = q <;> simp [h2, ih]

theorem lookupKV_mem {α : Type} (m : List (Key × α)) (k : Key) (v : α)
    (h : lookupKV m k = some v) : (k, v) ∈ m := by
  induction m with
  | nil => simp [lookupKV] at h
  | cons hd tl ih =>
      obtain ⟨k1, v1⟩ := hd
      by_cases h1 : k1 = k
      · subst h1
        simp [lookupKV] at h
        simp [h]
      · simp only [lookupKV, if_neg h1] at h
        exact List.mem_cons_of_mem _ (ih h)

theorem syncLoop_nil (oracle : Key → WriteResult) (uid : String) (now : Nat)
    (server : Server) :
    syncLoop oracle uid now server [] =
      { server := server, remaining := [], writes := [], history := [],
        synced := 0, failed := 0 } := rfl

theorem syncLoop_cons (oracle : Key → WriteResult) (uid : String) (now : Nat)
    (server : Server) (k : Key) (c : Cell) (tl : CellMap) :
    syncLoop oracle uid now server ((k, c) :: tl) =
      { server := (syncLoop oracle uid now
          (syncOne oracle uid now server k c).server tl).server,
        remaining := (syncOne oracle uid now server k c).requeued.toList ++
          (syncLoop oracle uid now
            (syncOne oracle uid now server k c).server tl).remaining,
        writes := (syncOne oracle uid now server k c).writes ++
          (syncLoop oracle uid now
            (syncOne oracle uid now server k c).server tl).writes,
        history := (syncOne oracle uid now server k c).history ++
          (syncLoop oracle uid now
            (syncOne oracle uid now server k c).server tl).history,
        synced := (syncOne oracle uid now server k c).synced +
          (syncLoop oracle uid now
            (syncOne oracle uid now server k c).server tl).synced,
        failed := (syncOne oracle uid now server k c).failed +
          (syncLoop oracle uid now
            (syncOne oracle uid now server k c).server tl).failed } := rfl

theorem syncOne_requeued_eq (oracle : Key → WriteResult) (uid : String)
    (now : Nat) (server : Server) (k : Key) (c : Cell) :
    (syncOne oracle uid now server k c).requeued =
      if shouldUpdate (lookupKV server k) c = true ∧ oracle k = .err
      then some (k, c) else none := by
  unfold syncOne
  cases hsu : shouldUpdate (lookupKV server k) c
  · simp [hsu]
  · cases ho : oracle k <;> simp [hsu, ho]

theorem syncOne_server_lookup_ne (oracle : Key → WriteResult) (uid : String)
    (now : Nat) (server : Server) (k : Key) (c : Cell) (q : Key)
    (h : q ≠ k) :
    lookupKV (syncOne oracle uid now server k c).server q =
      lookupKV server q := by
  unfold syncOne
  cases hsu : shouldUpdate (lookupKV server k) c
  · simp [hsu]
  · cases ho : oracle k <;> simp [hsu, ho, lookupKV_setKV_ne _ _ _ _ h]

theorem syncOne_err_state (oracle : Key → WriteResult) (uid : String)
    (now : Nat) (server : Server) (k : Key) (c : Cell)
    (hsu : shouldUpdate (lookupKV server k) c = true)
    (ho : oracle k = .err) :
    (syncOne oracle uid now server k c).server = server ∧
    (syncOne oracle uid now server k c).requeued = some (k, c) ∧
    (syncOne oracle uid now server k c).writes = [] := by
  unfold syncOne
  simp [hsu, ho]

theorem syncOne_failed_toList (oracle : Key → WriteResult) (uid : String)
    (now : Nat) (server : Server) (k : Key) (c : Cell) :
    (syncOne oracle uid now server k c).failed =
      (syncOne oracle uid now server k c).requeued.toList.length := by
  unfold syncOne
  cases hsu : shouldUpdate (lookupKV server k) c
  · simp [hsu]
  · cases ho : oracle k <;> simp [hsu, ho]

theorem syncLoop_remaining_sub (oracle : Key → WriteResult) (uid : String)
    (now : Nat) (server : Server) (pend : CellMap) :
    ∀ e ∈ (syncLoop oracle uid now server pend).remaining, e ∈ pend := by
  induction pend generalizing server with
  | nil => simp [syncLoop_nil]
  | cons hd tl ih =>
      obtain ⟨k, c⟩ := hd
      intro e he
      rw [syncLoop_cons] at he
      simp only [List.mem_append] at he
      rcases he with he | he
      · rw [syncOne_requeued_eq] at he
        split at he
        · simp only [Option.toList_some, List.mem_singleton] at he
          simp [he]
        · simp at he
      · exact List.mem_cons_of_mem _ (ih _ e he)

theorem syncLoop_server_lookup_of_not_mem (oracle : Key → WriteResult)
    (uid : String) (now : Nat) (server : Server) (pend : CellMap) (q : Key)
    (h : q ∉ pend.map Prod.fst) :
    lookupKV (syncLoop oracle uid now server pend).server q =
      lookupKV server q := by
  induction pend generalizing server with
  | nil => simp [syncLoop_nil]
  | cons hd tl ih =>
      obtain ⟨k, c⟩ := hd
      simp only [List.map_cons, List.mem_cons] at h
      push_neg at h
      rw [syncLoop_cons]
      have := ih (syncOne oracle uid now server k c).server h.2
      rw [this, syncOne_server_lookup_ne _ _ _ _ _ _ _ h.1]

theorem syncLoop_remaining_spec (oracle : Key → WriteResult) (uid : String)
    (now : Nat) (server : Server) (pend : CellMap)
    (hnd : (pend.map Prod.fst).Nodup) :
    ∀ e ∈ (syncLoop oracle uid now server pend).remaining,
      oracle e.1 = .err ∧
      shouldUpdate (lookupKV server e.1) e.2 = true ∧
      lookupKV (syncLoop oracle uid now server pend).server e.1 =
        lookupKV server e.1 := by
  induction pend generalizing server with
  | nil => simp [syncLoop_nil]
  | cons hd tl ih =>
      obtain ⟨k, c⟩ := hd
      simp only [List.map_cons, List.nodup_cons] at hnd
      intro e he
      rw [syncLoop_cons] at he
      simp only [List.mem_append] at he
      rcases he with he | he
      · rw [syncOne_requeued_eq] at he
        split at he
        · rename_i hcond
          simp only [Option.toList_some, List.mem_singleton] at he
          subst he
          have hs := syncOne_err_state oracle uid now server k c hcond.1 hcond.2
          refine ⟨hcond.2, hcond.1, ?_⟩
          rw [syncLoop_cons, hs.1]
          exact syncLoop_server_lookup_of_not_mem oracle uid now server tl k hnd.1
        · simp at he
      · have hmem := syncLoop_remaining_sub oracle uid now
          (syncOne oracle uid now server k c).server tl e he
        have hek : e.1 ≠ k := by
          intro hek
          exact hnd.1 (hek ▸ List.mem_map_of_mem Prod.fst hmem)
        obtain ⟨ha, hb, hc⟩ :=
          ih (syncOne oracle uid now server k c).server hnd.2 e he
        refine ⟨ha, ?_, ?_⟩
        · rwa [syncOne_server_lookup_ne _ _ _ _ _ _ _ hek] at hb
        · rw [syncLoop_cons, hc, syncOne_server_lookup_ne _ _ _ _ _ _ _ hek]

theorem syncLoop_stable (oracle : Key → WriteResult) (uid : String)
    (now : Nat) (server : Server) (pend : CellMap)
    (h : ∀ e ∈ pend, oracle e.1 = .err ∧
      shouldUpdate (lookupKV server e.1) e.2 = true) :
    (syncLoop oracle uid now server pend).server = server ∧
    (syncLoop oracle uid now server pend).remaining = pend ∧
    (syncLoop oracle uid now server pend).writes = [] := by
  induction pend with
  | nil => simp [syncLoop_nil]
  | cons hd tl ih =>
      obtain ⟨k, c⟩ := hd
      have hh := h (k, c) (List.mem_cons_self _ _)
      have hs := syncOne_err_state oracle uid now server k c hh.2 hh.1
      have iht := ih (fun e he => h e (List.mem_cons_of_mem _ he))
      rw [syncLoop_cons, hs.1]
      refine ⟨iht.1, ?_, ?_⟩
      · rw [hs.2.1, iht.2.1]
        rfl
      · rw [hs.2.2, iht.2.2]
        rfl

theorem syncPendingChanges_noop (oracle : Key → WriteResult) (uid : String)
    (now : Nat) (st : TableState)
    (h : st.isOnline = false ∨ st.pendingChanges = [] ∨ st.isSyncing = true) :
    syncPendingChanges oracle uid now st =
      (st, { synced := 0, failed := 0, writes := [] }) := by
  unfold syncPendingChanges
  rcases h with h | h | h
  · simp [h]
  · simp [h]
  · simp [h]

theorem syncPendingChanges_run (oracle : Key → WriteResult) (uid : String)
    (now : Nat) (st : TableState)
    (h1 : st.isOnline = true) (h2 : st.pendingChanges ≠ [])
    (h3 : st.isSyncing = false) :
    (syncPendingChanges oracle uid now st).1.pendingChanges =
      (syncLoop oracle uid now st.server st.pendingChanges).remaining ∧
    (syncPendingChanges oracle uid now st).1.server =
      (syncLoop oracle uid now st.server st.pendingChanges).server ∧
    (syncPendingChanges oracle uid now st).1.isOnline = true ∧
    (syncPendingChanges oracle uid now st).1.isSyncing = false ∧
    (syncPendingChanges oracle uid now st).2.writes =
      (syncLoop oracle uid now st.server st.pendingChanges).writes := by
  have hemp : st.pendingChanges.isEmpty = false := by
    cases hp : st.pendingChanges
    · exact absurd hp h2
    · rfl
  unfold syncPendingChanges
  rw [h1, h3, hemp]
  simp only [Bool.not_true, Bool.false_or, Bool.or_false]
  split
  · rename_i hc
    exact absurd hc (by simp)
  · split <;> exact ⟨rfl, rfl, rfl, rfl, rfl⟩

theorem le_foldl_max {α : Type} (f : α → Nat) (l : List α) (i : Nat) :
    i ≤ l.foldl (fun m x => max m (f x)) i := by
  induction l generalizing i with
  | nil => simp
  | cons hd tl ih =>
      simp only [List.foldl_cons]
      exact le_trans (le_max_left _ _) (ih _)

theorem foldl_max_of_mem {α : Type} (f : α → Nat) :
    ∀ (l : List α) (i : Nat) (a : α), a ∈ l →
      f a ≤ l.foldl (fun m x => max m (f x)) i := by
  intro l
  induction l with
  | nil =>
      intro i a h
      cases h
  | cons hd tl ih =>
      intro i a h
      simp only [List.foldl_cons]
      rcases List.mem_cons.mp h with h | h
      · subst h
        exact le_trans (le_max_right _ _) (le_foldl_max f tl _)
      · exact ih _ a h

theorem lookupKV_eraseRowFold {α : Type} (m : List (Key × α)) (r n : Nat)
    (q : Key) :
    lookupKV ((List.range n).foldl (fun acc c => eraseKV acc (r, c)) m) q =
      if q.1 = r ∧ q.2 < n then none else lookupKV m q := by
  obtain ⟨qa, qb⟩ := q
  induction n with
  | zero => simp
  | succ n ih =>
      rw [List.range_succ, List.foldl_append, List.foldl_cons, List.foldl_nil]
      by_cases hq : (qa, qb) = ((r, n) : Key)
      · obtain ⟨h1, h2⟩ := Prod.mk.injEq .. ▸ hq
        subst h1
        subst h2
        rw [lookupKV_eraseKV_self, if_pos ⟨rfl, Nat.lt_succ_self _⟩]
      · rw [lookupKV_eraseKV_ne _ _ _ hq, ih]
        have hq2 : ¬(qa = r ∧ qb = n) := by
          intro hc
          exact hq (by simp [hc.1, hc.2])
        by_cases h1 : qa = r ∧ qb < n
        · rw [if_pos h1, if_pos ⟨h1.1, Nat.lt_succ_of_lt h1.2⟩]
        · rw [if_neg h1, if_neg (by omega)]

theorem lookupKV_eraseColFold {α : Type} (m : List (Key × α)) (c n : Nat)
    (q : Key) :
    lookupKV ((List.range n).foldl (fun acc r => eraseKV acc (r, c)) m) q =
      if q.2 = c ∧ q.1 < n then none else lookupKV m q := by
  obtain ⟨qa, qb⟩ := q
  induction n with
  | zero => simp
  | succ n ih =>
      rw [List.range_succ, List.foldl_append, List.foldl_cons, List.foldl_nil]
      by_cases hq : (qa, qb) = ((n, c) : Key)
      · obtain ⟨h1, h2⟩ := Prod.mk.injEq .. ▸ hq
        subst h1
        subst h2
        rw [lookupKV_eraseKV_self, if_pos ⟨rfl, Nat.lt_succ_self _⟩]
      · rw [lookupKV_eraseKV_ne _ _ _ hq, ih]
        have hq2 : ¬(qa = n ∧ qb = c) := by
          intro hc
          exact hq (by simp [hc.1, hc.2])
        by_cases h1 : qb = c ∧ qa < n
        · rw [if_pos h1, if_pos ⟨h1.1, Nat.lt_succ_of_lt h1.2⟩]
        · rw [if_neg h1, if_neg (by omega)]

/-- C1: the conflict decision for a pending local edit against an existing
authority record is not the remote-wins-on-ties rule the claim states:
at equal timestamps (`5 = 5`) the decision is Apply and the local edit is
written through to the authority, which then holds the local value with a
bumped version, instead of the claimed Supersede (drop without writing). -/
theorem lww_tie_counterexample :
    exTie.lastModifiedAt.getD 0 = cTie.lastModifiedAt.getD 0 ∧
    shouldUpdate (some exTie) cTie = true ∧
    (syncOne oracleOk "alice" 9 [((0, 0), exTie)] (0, 0) cTie).writes ≠ [] ∧
    lookupKV (syncOne oracleOk "alice" 9 [((0, 0), exTie)] (0, 0)
        cTie).server (0, 0) =
      some { value := "local", version := 4, lastModifiedBy := some "alice",
             lastModifiedAt := some 5 } := by
  decide

/-- C1 (amended): the conflict decision is last-writer-wins with local
winning ties: against an existing authority record the local edit is
applied exactly when `local.lastModifiedAt >= remote.lastModifiedAt`
(missing timestamps read as 0) and superseded exactly when the authority
timestamp is strictly greater; equal timestamps resolve to Apply.  On
Supersede the pending edit is dropped without any authority write. -/
theorem lww_resolution (ex : ServerCell) (c : Cell)
    (oracle : Key → WriteResult) (uid : String) (now : Nat)
    (server : Server) (k : Key) :
    (shouldUpdate (some ex) c = true ↔
      ex.lastModifiedAt.getD 0 ≤ c.lastModifiedAt.getD 0) ∧
    (shouldUpdate (some ex) c = false ↔
      c.lastModifiedAt.getD 0 < ex.lastModifiedAt.getD 0) ∧
    (ex.lastModifiedAt.getD 0 = c.lastModifiedAt.getD 0 →
      shouldUpdate (some ex) c = true) ∧
    (shouldUpdate (lookupKV server k) c = false →
      (syncOne oracle uid now server k c).writes = [] ∧
      (syncOne oracle uid now server k c).server = server ∧
      (syncOne oracle uid now server k c).requeued = none ∧
      (syncOne oracle uid now server k c).attempted = none) := by
  refine ⟨?_, ?_, ?_, ?_⟩
  · simp only [shouldUpdate]
    split <;> rename_i h <;> simp <;> omega
  · simp only [shouldUpdate]
    split <;> rename_i h <;> simp <;> omega
  · intro h
    simp only [shouldUpdate]
    split <;> rename_i h2
    · exfalso
      omega
    · rfl
  · intro h
    simp [syncOne, h]

/-- Witness for `lww_resolution` at concrete inputs: a strictly newer local
edit resolves to Apply, and a strictly newer authority record makes
`syncOne` drop the edit without writing. -/
theorem lww_resolution_witness :
    shouldUpdate
      (some { value := "r", version := 1, lastModifiedAt := some 4 })
      { row := 0, col := 0, value := "l", version := 1,
        lastModifiedAt := some 7 } = true ∧
    (syncOne oracleOk "u" 9
        [((0, 0), { value := "r", version := 1, lastModifiedAt := some 7 })]
        (0, 0)
        { row := 0, col := 0, value := "l", version := 1,
          lastModifiedAt := some 4 }).writes = [] := by
  constructor
  · exact (lww_resolution
      { value := "r", version := 1, lastModifiedAt := some 4 }
      { row := 0, col := 0, value := "l", version := 1,
        lastModifiedAt := some 7 }
      oracleOk "u" 9 [] (0, 0)).1.mpr (by decide)
  · exact ((lww_resolution
      { value := "r", version := 1, lastModifiedAt := some 7 }
      { row := 0, col := 0, value := "l", version := 1,
        lastModifiedAt := some 4 }
      oracleOk "u" 9
      [((0, 0), { value := "r", version := 1, lastModifiedAt := some 7 })]
      (0, 0)).2.2.2 (by decide)).1

/-- C2: whenever a write-through targets a cell whose authority record
already exists — from an immediate online edit (`updateCell`) or from
syncing a pending change (`syncOne`) — the attempted record's version is
`max(local.version, remote.version + 1)`, hence strictly greater than the
currently-known authority version; on a successful sync write that record
is what the authority then stores. -/
theorem version_monotonic (oracle : Key → WriteResult) (uid : String)
    (now : Nat) (st : TableState) (row col : Nat) (v : String)
    (server : Server) (k : Key) (c : Cell) :
    (∀ ex, st.isOnline = true → lookupKV st.server (row, col) = some ex →
      ∃ w, (updateCell oracle uid now st row col v).2 = some ((row, col), w) ∧
        w.version =
          max (((lookupKV st.cells (row, col)).map Cell.version).getD 0 + 1)
            (ex.version + 1) ∧
        ex.version < w.version) ∧
    (∀ ex, lookupKV server k = some ex → shouldUpdate (some ex) c = true →
      ∃ w, (syncOne oracle uid now server k c).attempted = some (k, w) ∧
        w.version = max c.version (ex.version + 1) ∧
        ex.version < w.version ∧
        (oracle k = .ok →
          lookupKV (syncOne oracle uid now server k c).server k = some w)) := by
  constructor
  · intro ex hon hex
    refine ⟨{ value := v,
              lastModifiedBy := some uid,
              version := max (((lookupKV st.cells (row, col)).map
                Cell.version).getD 0 + 1) (ex.version + 1),
              lastModifiedAt := some now }, ?_, rfl, ?_⟩
    · cases ho : oracle (row, col) <;> simp [updateCell, hon, hex, ho]
    · show ex.version < max (((lookupKV st.cells (row, col)).map
        Cell.version).getD 0 + 1) (ex.version + 1)
      omega
  · intro ex hex hsu
    refine ⟨{ value := c.value,
              version := max c.version (ex.version + 1),
              lastModifiedBy := some uid,
              lastModifiedAt := some (c.lastModifiedAt.getD now) },
      ?_, rfl, ?_, ?_⟩
    · cases ho : oracle k <;>
        simp [syncOne, hex, hsu, ho, syncWriteRec]
    · show ex.version < max c.version (ex.version + 1)
      omega
    · intro ho
      simp [syncOne, hex, hsu, ho, syncWriteRec, lookupKV_setKV_self]

/-- Witness for `version_monotonic`: with a cached version 5 and an
authority version 7, the attempted write carries version 8. -/
theorem version_monotonic_witness :
    ∃ w, (updateCell oracleOk "u" 9
        { initialState with
            cells := [((0, 0), { row := 0, col := 0, value := "o",
                                 version := 5 })],
            server := [((0, 0), { value := "o", version := 7 })] }
        0 0 "n").2 = some ((0, 0), w) ∧
      w.version = max ((((lookupKV
        ({ initialState with
            cells := [((0, 0), { row := 0, col := 0, value := "o",
                                 version := 5 })],
            server := [((0, 0), { value := "o", version := 7 })] } :
          TableState).cells (0, 0)).map Cell.version).getD 0) + 1) (7 + 1) ∧
      7 < w.version :=
  (version_monotonic oracleOk "u" 9
    { initialState with
        cells := [((0, 0), { row := 0, col := 0, value := "o",
                             version := 5 })],
        server := [((0, 0), { value := "o", version := 7 })] }
    0 0 "n" [] (0, 0)
    { row := 0, col := 0, value := "x", version := 1 }).1
    { value := "o", version := 7 } rfl (by decide)

/-- C3: a history record IS appended for a local online write that fails
and becomes a PendingChange (the source logs history before inspecting the
write error), and NO history record is appended on a Supersede during sync
even though the authority record differs from what the actor believed —
both directions contradict the claim. -/
theorem history_on_failed_write_counterexample :
    (updateCell oracleErr "alice" 7 initialState 0 0 "x").1.history.length
      = 1 ∧
    lookupKV (updateCell oracleErr "alice" 7
        initialState 0 0 "x").1.pendingChanges (0, 0) =
      some { row := 0, col := 0, value := "x", version := 1,
             lastModifiedBy := some "alice", lastModifiedAt := some 7 } ∧
    (syncOne oracleOk "alice" 9
        [((0, 0), { value := "remote", version := 3,
                    lastModifiedAt := some 9 })] (0, 0)
        { row := 0, col := 0, value := "mine", version := 1,
          lastModifiedBy := some "alice",
          lastModifiedAt := some 4 }).history = [] ∧
    (syncOne oracleOk "alice" 9
        [((0, 0), { value := "remote", version := 3,
                    lastModifiedAt := some 9 })] (0, 0)
        { row := 0, col := 0, value := "mine", version := 1,
          lastModifiedBy := some "alice",
          lastModifiedAt := some 4 }).requeued = none := by
  decide

/-- C3 (amended): `updateCell`'s online path appends exactly one history
record per invocation whether or not the authority write succeeds (a
failing online write appends history and also queues the edit as a
PendingChange); offline edits append no history; during sync exactly one
history record is appended per Apply attempt regardless of the write
outcome, and none on a Supersede. -/
theorem history_append_policy (oracle : Key → WriteResult) (uid : String)
    (now : Nat) (st : TableState) (row col : Nat) (v : String)
    (server : Server) (k : Key) (c : Cell) :
    (st.isOnline = true →
      (updateCell oracle uid now st row col v).1.history.length =
        st.history.length + 1) ∧
    (st.isOnline = true → oracle (row, col) ≠ .ok →
      ∃ nc, lookupKV (updateCell oracle uid now st row col v).1.pendingChanges
          (row, col) = some nc) ∧
    (st.isOnline = false →
      (updateCell oracle uid now st row col v).1.history = st.history ∧
      ∃ nc, lookupKV (updateCell oracle uid now st row col v).1.pendingChanges
          (row, col) = some nc) ∧
    (shouldUpdate (lookupKV server k) c = true →
      (syncOne oracle uid now server k c).history.length = 1) ∧
    (shouldUpdate (lookupKV server k) c = false →
      (syncOne oracle uid now server k c).history = []) := by
  refine ⟨?_, ?_, ?_, ?_, ?_⟩
  · intro hon
    cases ho : oracle (row, col) <;> simp [updateCell, hon, ho]
  · intro hon hno
    cases ho : oracle (row, col) <;>
      simp [updateCell, hon, ho, lookupKV_setKV_self] at hno ⊢
  · intro hoff
    simp [updateCell, hoff, lookupKV_setKV_self]
  · intro hsu
    cases ho : oracle k <;> simp [syncOne, hsu, ho]
  · intro hsu
    simp [syncOne, hsu]

/-- Witness for `history_append_policy`: an offline edit appends no
history and queues the edit; a sync Supersede appends no history. -/
theorem history_append_policy_witness :
    ((updateCell oracleOk "u" 3 { initialState with isOnline := false }
        1 1 "y").1.history = initialState.history ∧
      ∃ nc, lookupKV (updateCell oracleOk "u" 3
          { initialState with isOnline := false }
          1 1 "y").1.pendingChanges (1, 1) = some nc) ∧
    (syncOne oracleOk "u" 9
        [((0, 0), { value := "r", version := 2, lastModifiedAt := some 9 })]
        (0, 0)
        { row := 0, col := 0, value := "l", version := 1,
          lastModifiedAt := some 4 }).history = [] := by
  constructor
  · exact (history_append_policy oracleOk "u" 3
      { initialState with isOnline := false } 1 1 "y" [] (0, 0)
      { row := 0, col := 0, value := "l", version := 1 }).2.2.1 rfl
  · exact (history_append_policy oracleOk "u" 9 initialState 0 0 "z"
      [((0, 0), { value := "r", version := 2, lastModifiedAt := some 9 })]
      (0, 0)
      { row := 0, col := 0, value := "l", version := 1,
        lastModifiedAt := some 4 }).2.2.2.2 (by decide)

/-- C4: grid dimensions stay at least 1 and only grow automatically from
observed data — loading authority rows makes `rows` at least `R + 1` for
every observed row index `R` (likewise columns) and never shrinks either
dimension; the explicit remove-row / remove-column operations are the only
shrinking ones: they decrement the dimension by one, delete every cached
cell and pending change addressed by the removed index, and do nothing
when the dimension is already 1. -/
theorem grid_dimensions (st : TableState) (items : Server) :
    (∀ it ∈ items, it.1.1 + 1 ≤ (loadTableData st items).rows ∧
      it.1.2 + 1 ≤ (loadTableData st items).cols) ∧
    (st.rows ≤ (loadTableData st items).rows ∧
      st.cols ≤ (loadTableData st items).cols) ∧
    (1 ≤ initialState.rows ∧ 1 ≤ initialState.cols) ∧
    ((addRow st).rows = st.rows + 1 ∧ (addColumn st).cols = st.cols + 1) ∧
    (1 < st.rows →
      (removeRow st).rows = st.rows - 1 ∧ (removeRow st).cols = st.cols ∧
      (∀ c : Nat, c < st.cols →
        lookupKV (removeRow st).cells (st.rows - 1, c) = none ∧
        lookupKV (removeRow st).pendingChanges (st.rows - 1, c) = none)) ∧
    (1 < st.rows → (∀ e ∈ st.cells, e.1.2 < st.cols) →
      ∀ c : Nat, lookupKV (removeRow st).cells (st.rows - 1, c) = none) ∧
    (st.rows ≤ 1 → removeRow st = st) ∧
    (1 < st.cols →
      (removeColumn st).cols = st.cols - 1 ∧
      (removeColumn st).rows = st.rows ∧
      (∀ r : Nat, r < st.rows →
        lookupKV (removeColumn st).cells (r, st.cols - 1) = none ∧
        lookupKV (removeColumn st).pendingChanges (r, st.cols - 1) = none)) ∧
    (st.cols ≤ 1 → removeColumn st = st) ∧
    (1 ≤ st.rows → 1 ≤ (removeRow st).rows) ∧
    (1 ≤ st.cols → 1 ≤ (removeColumn st).cols) := by
  refine ⟨?_, ?_, ⟨by decide, by decide⟩, ⟨rfl, rfl⟩, ?_, ?_, ?_, ?_, ?_,
    ?_, ?_⟩
  · intro it hmem
    constructor
    · simp only [loadTableData]
      have := foldl_max_of_mem (fun e => e.1.1) items (st.rows - 1) it hmem
      simp only [] at this
      omega
    · simp only [loadTableData]
      have := foldl_max_of_mem (fun e => e.1.2) items (st.cols - 1) it hmem
      simp only [] at this
      omega
  · constructor
    · simp only [loadTableData]
      omega
    · simp only [loadTableData]
      omega
  · intro h
    simp only [removeRow, if_pos h]
    refine ⟨trivial, trivial, ?_⟩
    intro c hc
    constructor
    · rw [lookupKV_eraseRowFold]
      simp [hc]
    · rw [lookupKV_eraseRowFold]
      simp [hc]
  · intro h hb c
    simp only [removeRow, if_pos h]
    rw [lookupKV_eraseRowFold]
    by_cases hc : c < st.cols
    · simp [hc]
    · rw [if_neg (by omega)]
      cases hl : lookupKV st.cells (st.rows - 1, c)
      · rfl
      · exact absurd (hb _ (lookupKV_mem _ _ _ hl)) (by simpa using hc)
  · intro h
    simp only [removeRow]
    rw [if_neg (by omega)]
  · intro h
    simp only [removeColumn, if_pos h]
    refine ⟨trivial, trivial, ?_⟩
    intro r hr
    constructor
    · rw [lookupKV_eraseColFold]
      simp [hr]
    · rw [lookupKV_eraseColFold]
      simp [hr]
  · intro h
    simp only [removeColumn]
    rw [if_neg (by omega)]
  · intro h
    simp only [removeRow]
    split
    · simp only []
      omega
    · exact h
  · intro h
    simp only [removeColumn]
    split
    · simp only []
      omega
    · exact h

/-- Witness for `grid_dimensions` on a 3 by 2 grid holding cells at
`(2,0)`, `(1,1)` and a pending change at `(2,1)`: loading a row at index 7
grows `rows` to 8; `removeRow` drops to 2 rows and evicts the cell and
pending change in row 2. -/
theorem grid_dimensions_witness :
    (7 + 1 ≤ (loadTableData stGrid
      [((7, 0), { value := "v", version := 1 })]).rows) ∧
    (stGrid.rows ≤ (loadTableData stGrid
      [((7, 0), { value := "v", version := 1 })]).rows) ∧
    (removeRow stGrid).rows = stGrid.rows - 1 ∧
    lookupKV (removeRow stGrid).cells (2, 0) = none ∧
    lookupKV (removeRow stGrid).pendingChanges (2, 1) = none := by
  have h := grid_dimensions stGrid [((7, 0), { value := "v", version := 1 })]
  refine ⟨(h.1 ((7, 0), { value := "v", version := 1 })
      (List.mem_singleton.mpr rfl)).1,
    h.2.1.1, (h.2.2.2.2.1 (by decide)).1, ?_, ?_⟩
  · exact ((h.2.2.2.2.1 (by decide)).2.2 0 (by decide)).1
  · exact ((h.2.2.2.2.1 (by decide)).2.2 1 (by decide)).2

/-- C5: inside a sync pass, a pending change whose authority write is
attempted is requeued (and counted failed) exactly on a non-duplicate-key
error; a duplicate-key error is treated as already synced (counted synced,
not requeued) and a success is counted synced; over a whole pass every
remaining entry comes from the pending set and the failed counter equals
the number of remaining entries, so nothing is dropped on error except on
duplicate-key. -/
theorem sync_error_handling (oracle : Key → WriteResult) (uid : String)
    (now : Nat) (server : Server) (k : Key) (c : Cell) (pend : CellMap) :
    ((syncOne oracle uid now server k c).attempted.isSome = true →
      (oracle k = .dupKey →
        (syncOne oracle uid now server k c).requeued = none ∧
        (syncOne oracle uid now server k c).synced = 1 ∧
        (syncOne oracle uid now server k c).failed = 0) ∧
      (oracle k = .err →
        (syncOne oracle uid now server k c).requeued = some (k, c) ∧
        (syncOne oracle uid now server k c).synced = 0 ∧
        (syncOne oracle uid now server k c).failed = 1) ∧
      (oracle k = .ok →
        (syncOne oracle uid now server k c).requeued = none ∧
        (syncOne oracle uid now server k c).synced = 1 ∧
        (syncOne oracle uid now server k c).failed = 0)) ∧
    (∀ e ∈ (syncLoop oracle uid now server pend).remaining, e ∈ pend) ∧
    ((syncLoop oracle uid now server pend).failed =
      (syncLoop oracle uid now server pend).remaining.length) := by
  refine ⟨?_, syncLoop_remaining_sub oracle uid now server pend, ?_⟩
  · intro hatt
    cases hsu : shouldUpdate (lookupKV server k) c
    · exfalso
      rw [syncOne, if_neg (by simp [hsu])] at hatt
      simp at hatt
    · refine ⟨?_, ?_, ?_⟩ <;> intro ho <;>
        simp [syncOne, hsu, ho]
  · induction pend generalizing server with
    | nil => rfl
    | cons hd tl ih =>
        obtain ⟨k1, c1⟩ := hd
        rw [syncLoop_cons]
        simp only [List.length_append]
        rw [ih, syncOne_failed_toList]

/-- Witness for `sync_error_handling`: a pass over two pending changes
under the all-errors oracle requeues both and counts two failures; under
the duplicate-key oracle one attempted write is treated as synced. -/
theorem sync_error_handling_witness :
    ((syncOne oracleDup "u" 9 [] (1, 2) cPend).requeued = none ∧
      (syncOne oracleDup "u" 9 [] (1, 2) cPend).synced = 1 ∧
      (syncOne oracleDup "u" 9 [] (1, 2) cPend).failed = 0) ∧
    (syncLoop oracleErr "u" 9 [] [((1, 2), cPend)]).failed =
      (syncLoop oracleErr "u" 9 [] [((1, 2), cPend)]).remaining.length := by
  constructor
  · exact ((sync_error_handling oracleDup "u" 9 [] (1, 2) cPend []).1
      (by decide)).1 rfl
  · exact (sync_error_handling oracleErr "u" 9 [] (1, 2) cPend
      [((1, 2), cPend)]).2.2

/-- C6: a change-feed event authored by the local actor, or targeting the
cell currently being edited locally, leaves the whole state unchanged;
otherwise the event's value and version overwrite the cache entry for
exactly that key unconditionally, every other cell and every other state
component staying as it was. -/
theorem feed_event_behavior (uid : String) (st : TableState)
    (ev : FeedEvent) :
    ((ev.lastModifiedBy = some uid ∨ st.editingCell = some (ev.row, ev.col))
      → applyFeedEvent uid st ev = st) ∧
    (ev.lastModifiedBy ≠ some uid → st.editingCell ≠ some (ev.row, ev.col) →
      lookupKV (applyFeedEvent uid st ev).cells (ev.row, ev.col) =
        some { row := ev.row, col := ev.col, value := ev.value.getD "",
               version := ev.version, lastModifiedBy := ev.lastModifiedBy,
               lastModifiedAt := none } ∧
      (∀ q : Key, q ≠ (ev.row, ev.col) →
        lookupKV (applyFeedEvent uid st ev).cells q = lookupKV st.cells q) ∧
      (applyFeedEvent uid st ev).pendingChanges = st.pendingChanges ∧
      (applyFeedEvent uid st ev).server = st.server ∧
      (applyFeedEvent uid st ev).history = st.history ∧
      (applyFeedEvent uid st ev).editingCell = st.editingCell ∧
      (applyFeedEvent uid st ev).editingValue = st.editingValue ∧
      (applyFeedEvent uid st ev).rows = st.rows ∧
      (applyFeedEvent uid st ev).cols = st.cols) := by
  constructor
  · intro h
    rcases h with h | h <;> simp [applyFeedEvent, h]
  · intro h1 h2
    refine ⟨?_, ?_, ?_, ?_, ?_, ?_, ?_, ?_, ?_⟩
    · simp [applyFeedEvent, h1, h2, lookupKV_setKV_self]
    · intro q hq
      simp only [applyFeedEvent, if_pos (And.intro h1 h2)]
      exact lookupKV_setKV_ne _ _ _ _ hq
    all_goals simp [applyFeedEvent, h1, h2]

/-- Witness for `feed_event_behavior` at the concrete event `evFeed`:
suppressed while `(2,3)` is being edited, applied to exactly that key
otherwise. -/
theorem feed_event_behavior_witness :
    applyFeedEvent "alice" { initialState with editingCell := some (2, 3) }
      evFeed = { initialState with editingCell := some (2, 3) } ∧
    lookupKV (applyFeedEvent "alice" initialState evFeed).cells (2, 3) =
      some { row := 2, col := 3, value := "w", version := 9,
             lastModifiedBy := some "bob", lastModifiedAt := none } := by
  constructor
  · exact (feed_event_behavior "alice"
      { initialState with editingCell := some (2, 3) } evFeed).1
      (Or.inr rfl)
  · exact ((feed_event_behavior "alice" initialState evFeed).2
      (by decide) (by decide)).1

/-- C7: invoking the sync engine while offline, with an empty pending set,
or while a pass is already in flight, is a no-op: the state is returned
unchanged and no authority writes (and no synced/failed counts) are
produced. -/
theorem sync_mutual_exclusion (oracle : Key → WriteResult) (uid : String)
    (now : Nat) (st : TableState)
    (h : st.isOnline = false ∨ st.pendingChanges = [] ∨
      st.isSyncing = true) :
    syncPendingChanges oracle uid now st =
      (st, { synced := 0, failed := 0, writes := [] }) :=
  syncPendingChanges_noop oracle uid now st h

/-- Witness for `sync_mutual_exclusion`: an offline state with a pending
change, an online state with a pass already in flight, and an online state
with nothing pending are all left untouched. -/
theorem sync_mutual_exclusion_witness :
    syncPendingChanges oracleOk "u" 3 stOfflinePending =
      (stOfflinePending, { synced := 0, failed := 0, writes := [] }) ∧
    syncPendingChanges oracleOk "u" 3 { stPending with isSyncing := true } =
      ({ stPending with isSyncing := true },
        { synced := 0, failed := 0, writes := [] }) ∧
    syncPendingChanges oracleOk "u" 3 initialState =
      (initialState, { synced := 0, failed := 0, writes := [] }) := by
  refine ⟨?_, ?_, ?_⟩
  · exact sync_mutual_exclusion oracleOk "u" 3 stOfflinePending (Or.inl rfl)
  · exact sync_mutual_exclusion oracleOk "u" 3
      { stPending with isSyncing := true } (Or.inr (Or.inr rfl))
  · exact sync_mutual_exclusion oracleOk "u" 3 initialState
      (Or.inr (Or.inl rfl))

/-- C9: committing an edit session whose buffer equals the value captured
when the session opened can still write: after `startEditing` captured
`"a"` on `(0,0)`, a data reload brings the authority value `"b"` into the
cache without closing the session; `finishEditing` then compares the
buffer against the reloaded cache value, finds them different, and
performs an authority write and a history append even though the committed
value equals the captured pre-edit value. -/
theorem finish_editing_counterexample :
    stEditingA.editingValue = "a" ∧
    cellA.value = "a" ∧
    stEditingAReloaded.editingValue = "a" ∧
    stEditingAReloaded.editingCell = some (0, 0) ∧
    (finishEditing oracleOk "alice" 9 stEditingAReloaded).2.isSome = true ∧
    (finishEditing oracleOk "alice" 9 stEditingAReloaded).1.history.length
      = 1 := by
  decide

/-- C9 (amended): `finishEditing` compares the edit buffer against the
cell's cached value at commit time (which is the captured pre-edit value
whenever the cache entry did not change during the session, since
`startEditing` seeds the buffer from it): when they are equal it generates
no PendingChange, no authority write, and no history record, and only
closes the session; and `startEditing` captures the current cached
value. -/
theorem finish_editing_no_op (oracle : Key → WriteResult) (uid : String)
    (now : Nat) (st : TableState) (k : Key) (r c : Nat)
    (he : st.editingCell = some k)
    (heq : st.editingValue = ((lookupKV st.cells k).map Cell.value).getD "") :
    finishEditing oracle uid now st =
      ({ st with editingCell := none, editingValue := "" }, none) ∧
    (startEditing st r c).editingValue =
      ((lookupKV st.cells (r, c)).map Cell.value).getD "" := by
  constructor
  · simp [finishEditing, he, heq]
  · rfl

/-- Witness for `finish_editing_no_op`: committing the unchanged buffer
`"a"` on `(0,0)` right after opening the session leaves everything but the
session fields untouched and attempts no write. -/
theorem finish_editing_no_op_witness :
    finishEditing oracleOk "alice" 9 stEditingA =
      ({ stEditingA with editingCell := none, editingValue := "" },
        none) := by
  exact (finish_editing_no_op oracleOk "alice" 9 stEditingA (0, 0) 0 0
    rfl (by decide)).1

/-- C10: a change-feed event that is applied writes a cache entry carrying
the event's value and version but no `lastModifiedAt`: the entry's
timestamp is `none`, so the timestamp comparisons used elsewhere (which
read a missing timestamp as 0) treat the cell as unset — in particular any
authority record with a positive timestamp supersedes it. -/
theorem feed_discards_timestamp (uid : String) (st : TableState)
    (ev : FeedEvent)
    (h1 : ev.lastModifiedBy ≠ some uid)
    (h2 : st.editingCell ≠ some (ev.row, ev.col)) :
    ∃ c, lookupKV (applyFeedEvent uid st ev).cells (ev.row, ev.col) =
        some c ∧
      c.value = ev.value.getD "" ∧ c.version = ev.version ∧
      c.lastModifiedAt = none ∧ c.lastModifiedAt.getD 0 = 0 ∧
      (∀ ex : ServerCell, 0 < ex.lastModifiedAt.getD 0 →
        shouldUpdate (some ex) c = false) := by
  refine ⟨{ row := ev.row, col := ev.col, value := ev.value.getD "",
            version := ev.version, lastModifiedBy := ev.lastModifiedBy,
            lastModifiedAt := none },
    ?_, rfl, rfl, rfl, rfl, ?_⟩
  · simp [applyFeedEvent, h1, h2, lookupKV_setKV_self]
  · intro ex hex
    simp only [shouldUpdate]
    split <;> rename_i h
    · rfl
    · exfalso
      simp only [Option.getD_none] at h
      omega

/-- Witness for `feed_discards_timestamp`: applying `evFeed` (whose own
timestamp is 44) leaves the cached entry with no timestamp. -/
theorem feed_discards_timestamp_witness :
    ∃ c, lookupKV (applyFeedEvent "alice" initialState evFeed).cells (2, 3)
        = some c ∧
      c.value = "w" ∧ c.version = 9 ∧ c.lastModifiedAt = none ∧
      c.lastModifiedAt.getD 0 = 0 ∧
      (∀ ex : ServerCell, 0 < ex.lastModifiedAt.getD 0 →
        shouldUpdate (some ex) c = false) :=
  feed_discards_timestamp "alice" initialState evFeed (by decide) (by decide)

/-- C8: running the sync engine twice in succession with no local edits in
between (under the same deterministic authority behaviour, modelled by a
fixed per-key write oracle) performs no successful authority write in the
second pass and leaves the remaining pending-change set exactly as the
first pass left it. -/
theorem sync_idempotent (oracle : Key → WriteResult) (uid : String)
    (t1 t2 : Nat) (st : TableState)
    (hnd : (st.pendingChanges.map Prod.fst).Nodup) :
    (syncPendingChanges oracle uid t2
      (syncPendingChanges oracle uid t1 st).1).2.writes = [] ∧
    (syncPendingChanges oracle uid t2
        (syncPendingChanges oracle uid t1 st).1).1.pendingChanges =
      (syncPendingChanges oracle uid t1 st).1.pendingChanges := by
  by_cases hg : st.isOnline = false ∨ st.pendingChanges = [] ∨
      st.isSyncing = true
  · rw [syncPendingChanges_noop oracle uid t1 st hg]
    rw [syncPendingChanges_noop oracle uid t2 st hg]
    exact ⟨rfl, rfl⟩
  · push_neg at hg
    obtain ⟨hon, hemp, hsy⟩ := hg
    have hon2 : st.isOnline = true := by
      cases h : st.isOnline
      · exact absurd h hon
      · rfl
    have hsy2 : st.isSyncing = false := by
      cases h : st.isSyncing
      · rfl
      · exact absurd h hsy
    obtain ⟨hp1, hs1, ho1, hi1, hw1⟩ :=
      syncPendingChanges_run oracle uid t1 st hon2 hemp hsy2
    by_cases hrem :
        (syncLoop oracle uid t1 st.server st.pendingChanges).remaining = []
    · have : (syncPendingChanges oracle uid t1 st).1.pendingChanges = [] :=
        hp1.trans hrem
      rw [syncPendingChanges_noop oracle uid t2 _ (Or.inr (Or.inl this))]
      exact ⟨rfl, rfl⟩
    · have hemp2 : (syncPendingChanges oracle uid t1 st).1.pendingChanges
          ≠ [] := by
        rw [hp1]
        exact hrem
      obtain ⟨hp2, hs2, ho2, hi2, hw2⟩ :=
        syncPendingChanges_run oracle uid t2
          (syncPendingChanges oracle uid t1 st).1 ho1 hemp2 hi1
      have hstab := syncLoop_stable oracle uid t2
        (syncLoop oracle uid t1 st.server st.pendingChanges).server
        (syncLoop oracle uid t1 st.server st.pendingChanges).remaining
        (by
          intro e he
          obtain ⟨h1, h2, h3⟩ := syncLoop_remaining_spec oracle uid t1
            st.server st.pendingChanges hnd e he
          exact ⟨h1, by rw [h3]; exact h2⟩)
      constructor
      · rw [hw2, hp1, hs1]
        exact hstab.2.2
      · rw [hp2, hs1, hp1]
        exact hstab.2.1

/-- Witness for `sync_idempotent`: one pending change under the all-errors
oracle — the first pass requeues it, the second pass writes nothing and
leaves the same single remaining entry. -/
theorem sync_idempotent_witness :
    (syncPendingChanges oracleErr "u" 2
      (syncPendingChanges oracleErr "u" 1 stPending).1).2.writes = [] ∧
    (syncPendingChanges oracleErr "u" 2
        (syncPendingChanges oracleErr "u" 1 stPending).1).1.pendingChanges =
      (syncPendingChanges oracleErr "u" 1 stPending).1.pendingChanges :=
  sync_idempotent oracleErr "u" 1 2 stPending (by decide)

end PeerTable
